import Mathlib

/-!
Verification of the Outline Classifier of the SpecRebuilder repository.

Strings are modelled as `List Char`; all character classes follow Python's
ASCII regex classes (`\d`, `[A-Z]`, `[a-z]`, `\w`, `\s`), which coincide with
the ASCII fragment of Python's Unicode-aware classes on the ASCII inputs the
scripts process.
-/

namespace SpecRebuilder

/-- ASCII digit, Python regex `\d` on ASCII input. -/
def isDigitC (c : Char) : Bool := 48 ≤ c.toNat && c.toNat ≤ 57

/-- ASCII uppercase letter, Python regex `[A-Z]`. -/
def isUpperC (c : Char) : Bool := 65 ≤ c.toNat && c.toNat ≤ 90

/-- ASCII lowercase letter, Python regex `[a-z]`. -/
def isLowerC (c : Char) : Bool := 97 ≤ c.toNat && c.toNat ≤ 122

/-- ASCII letter, Python regex `[A-Z]` under `re.IGNORECASE`. -/
def isAlphaC (c : Char) : Bool := isUpperC c || isLowerC c

/-- Python regex `\w` (word character) on ASCII input: letter, digit or underscore. -/
def isWordC (c : Char) : Bool := isAlphaC c || isDigitC c || c == '_'

/-- Python whitespace (`str.strip`, regex `\s`) restricted to ASCII. -/
def isPySpace (c : Char) : Bool :=
  c == ' ' || c == '\t' || c == '\n' || c == '\x0d' || c == '\x0b' || c == '\x0c'

/-- Roman-numeral letter set `[ivxlcdm]` matched case-insensitively
(`re.IGNORECASE`), as in the sources' roman rows. -/
def isRomanCI (c : Char) : Bool :=
  c == 'i' || c == 'v' || c == 'x' || c == 'l' || c == 'c' || c == 'd' || c == 'm' ||
  c == 'I' || c == 'V' || c == 'X' || c == 'L' || c == 'C' || c == 'D' || c == 'M'

/-- Lowercase roman-numeral letter set `[ivxlcdm]` without `re.IGNORECASE`. -/
def isRomanLower (c : Char) : Bool :=
  c == 'i' || c == 'v' || c == 'x' || c == 'l' || c == 'c' || c == 'd' || c == 'm'

/-- Roman letter set `[ivx]` of `simple_enhanced_analyzer.py`'s last level pattern. -/
def isRomanIVX (c : Char) : Bool := c == 'i' || c == 'v' || c == 'x'

/-- Python `str.lstrip()`. -/
def lstripL (l : List Char) : List Char := l.dropWhile isPySpace

/-- Python `str.rstrip()`. -/
def rstripL (l : List Char) : List Char := (l.reverse.dropWhile isPySpace).reverse

/-- Python `str.strip()`. -/
def stripL (l : List Char) : List Char := rstripL (lstripL l)

/-! ## Pattern-table matchers of `comprehensive_numbering_analyzer.determine_level_from_numbering`

Each matcher is the semantics of one anchored regex of the source, on the
whole token (`re.match` with a `$`-terminated pattern). -/

/-- Regex `^\d+\.0$`: digits, then exactly `.0`. -/
def matchND0 (l : List Char) : Bool :=
  !(l.takeWhile isDigitC).isEmpty && l.dropWhile isDigitC == ['.', '0']

/-- Regex `^\d+\.\d+$`: digits, a dot, then one or more digits. -/
def matchNDD (l : List Char) : Bool :=
  !(l.takeWhile isDigitC).isEmpty &&
    (match l.dropWhile isDigitC with
     | '.' :: rest => !rest.isEmpty && rest.all isDigitC
     | _ => false)

/-- Regex `^[A-Z]\.$`: a single uppercase letter then a period. -/
def matchUL (l : List Char) : Bool :=
  match l with
  | [c, d] => isUpperC c && d == '.'
  | _ => false

/-- Regex `^\d+\.$`: one or more digits then a period. -/
def matchND (l : List Char) : Bool :=
  !(l.takeWhile isDigitC).isEmpty && l.dropWhile isDigitC == ['.']

/-- Regex `^[a-z]\.$`: a single lowercase letter then a period. -/
def matchLL (l : List Char) : Bool :=
  match l with
  | [c, d] => isLowerC c && d == '.'
  | _ => false

/-- Regex `^[ivxlcdm]+\.$` with `re.IGNORECASE`: roman letters (either case)
then a period. -/
def matchRomanCI (l : List Char) : Bool :=
  !(l.takeWhile isRomanCI).isEmpty && l.dropWhile isRomanCI == ['.']

/-- `determine_level_from_numbering` of
`src/.history/src/comprehensive_numbering_analyzer_20250731112011.py`
(lines 73-87): first-match-wins if/elif chain over the six token regexes. -/
def determine_level_from_numbering (numbering : List Char) : Option Nat :=
  if matchND0 numbering then some 0
  else if matchNDD numbering then some 1
  else if matchUL numbering then some 2
  else if matchND numbering then some 3
  else if matchLL numbering then some 4
  else if matchRomanCI numbering then some 5
  else none

/-! ## Token inference of `hybrid_numbering_detector.deduce_numbering_from_text`

The seven prefix regexes of
`src/.history/src/hybrid_numbering_detector_20250731124530.py` (lines 59-67,
identical in `enhanced_hybrid_detector_20250731142206.py` lines 75-83), each
returning its first capture group.  The trailing `\s*` of every pattern can
match the empty string, so it imposes no condition. -/

/-- Regex `^(\d+\.\d+)\s*`, capture group `\d+\.\d+`. -/
def pNumDotNum (l : List Char) : Option (List Char) :=
  let ds := l.takeWhile isDigitC
  if ds.isEmpty then none
  else
    match l.dropWhile isDigitC with
    | '.' :: r2 =>
        let ms := r2.takeWhile isDigitC
        if ms.isEmpty then none else some (ds ++ '.' :: ms)
    | _ => none

/-- Regex `^(\d+\.)\s*`, capture group `\d+\.`. -/
def pNumDot (l : List Char) : Option (List Char) :=
  let ds := l.takeWhile isDigitC
  if ds.isEmpty then none
  else
    match l.dropWhile isDigitC with
    | '.' :: _ => some (ds ++ ['.'])
    | _ => none

/-- Regex `^([A-Z]\.)\s*`, capture group `[A-Z]\.`. -/
def pUpperDot (l : List Char) : Option (List Char) :=
  match l with
  | c :: '.' :: _ => if isUpperC c then some [c, '.'] else none
  | _ => none

/-- Regex `^([a-z]\.)\s*`, capture group `[a-z]\.`. -/
def pLowerDot (l : List Char) : Option (List Char) :=
  match l with
  | c :: '.' :: _ => if isLowerC c then some [c, '.'] else none
  | _ => none

/-- Regex `^\((\d+\))\s*`: the capture group starts after the opening
parenthesis, so it is `\d+\)` — the digits and the closing parenthesis only. -/
def pParenNum (l : List Char) : Option (List Char) :=
  match l with
  | '(' :: r =>
      let ds := r.takeWhile isDigitC
      if ds.isEmpty then none
      else
        match r.dropWhile isDigitC with
        | ')' :: _ => some (ds ++ [')'])
        | _ => none
  | _ => none

/-- Regex `^\(([A-Z]\))\s*`: capture group `[A-Z]\)` without the opening
parenthesis. -/
def pParenUpper (l : List Char) : Option (List Char) :=
  match l with
  | '(' :: c :: ')' :: _ => if isUpperC c then some [c, ')'] else none
  | _ => none

/-- Regex `^\(([a-z]\))\s*`: capture group `[a-z]\)` without the opening
parenthesis. -/
def pParenLower (l : List Char) : Option (List Char) :=
  match l with
  | '(' :: c :: ')' :: _ => if isLowerC c then some [c, ')'] else none
  | _ => none

/-- `deduce_numbering_from_text` of
`src/.history/src/hybrid_numbering_detector_20250731124530.py` (lines 148-159):
returns `None` on empty/whitespace-only text, else the first capture group of
the first matching pattern, matched against the stripped text. -/
def deduce_numbering_from_text (text : List Char) : Option (List Char) :=
  let t := stripL text
  if t.isEmpty then none
  else
    match pNumDotNum t with
    | some g => some g
    | none =>
    match pNumDot t with
    | some g => some g
    | none =>
    match pUpperDot t with
    | some g => some g
    | none =>
    match pLowerDot t with
    | some g => some g
    | none =>
    match pParenNum t with
    | some g => some g
    | none =>
    match pParenUpper t with
    | some g => some g
    | none => pParenLower t

/-! ## Content cleaning -/

/-- `clean_content` of
`src/.history/src/simple_enhanced_analyzer_20250808112058.py` (lines 92-100):
`re.sub('^' + re.escape(numbering) + r'\s*\t?\s*', '', text).strip()` when a
numbering token is given, else `text.strip()`.  The anchored substitution
removes the token and the maximal following whitespace run exactly when the
token occurs verbatim at the start of the text. -/
def clean_content (text numbering : List Char) : List Char :=
  if numbering.isEmpty then stripL text
  else if numbering.isPrefixOf text then
    stripL ((text.drop numbering.length).dropWhile isPySpace)
  else stripL text

/-- `clean_content_from_numbering` of
`src/.history/src/enhanced_hybrid_detector_20250731142206.py` (lines 180-193):
strips the text first, then removes the token and left-strips if the stripped
text starts with the token verbatim. -/
def clean_content_from_numbering (text numbering : List Char) : List Char :=
  if text.isEmpty || numbering.isEmpty then text
  else
    let cleaned := stripL text
    if numbering.isPrefixOf cleaned then
      (cleaned.drop numbering.length).dropWhile isPySpace
    else cleaned

/-! ## `looks_like_numbering` of `direct_text_matcher.py` (lines 197-216)

The text is first reduced by `re.sub(r'[^\w]', '', text)` — every non-word
character is removed, keeping letters, digits and underscores.  Then six
whole-string patterns are tried, every one with `re.IGNORECASE`, so the
letter classes `[A-Z]` and `[a-z]` both mean "any ASCII letter". -/

/-- Regex `^\d+$` on the cleaned text. -/
def llnDigits (t : List Char) : Bool := !t.isEmpty && t.all isDigitC

/-- Regex `^[A-Z]+$` with `re.IGNORECASE`: any nonempty all-letter string. -/
def llnUpper (t : List Char) : Bool := !t.isEmpty && t.all isAlphaC

/-- Regex `^[a-z]+$` with `re.IGNORECASE`: any nonempty all-letter string. -/
def llnLower (t : List Char) : Bool := !t.isEmpty && t.all isAlphaC

/-- Regex `^[ivxlcdm]+$` with `re.IGNORECASE`. -/
def llnRoman (t : List Char) : Bool := !t.isEmpty && t.all isRomanCI

/-- Regex `^\d+[A-Z]+$` with `re.IGNORECASE`: digits then letters. -/
def llnDigitsLetters (t : List Char) : Bool :=
  let ds := t.takeWhile isDigitC
  let rest := t.dropWhile isDigitC
  !ds.isEmpty && (!rest.isEmpty && rest.all isAlphaC)

/-- Regex `^[A-Z]+\d+$` with `re.IGNORECASE`: letters then digits. -/
def llnLettersDigits (t : List Char) : Bool :=
  let as' := t.takeWhile isAlphaC
  let rest := t.dropWhile isAlphaC
  !as'.isEmpty && (!rest.isEmpty && rest.all isDigitC)

/-- `looks_like_numbering` of
`src/.history/src/direct_text_matcher_20250731115057.py` (lines 197-216,
identical in `numbering_pattern_matcher_20250731113705.py` lines 172-191). -/
def looks_like_numbering (text : List Char) : Bool :=
  let ct := text.filter isWordC
  llnDigits ct || llnUpper ct || llnLower ct || llnRoman ct ||
    llnDigitsLetters ct || llnLettersDigits ct

/-! ## `determine_level` of `direct_text_matcher.py` (lines 218-236)

The token is reduced with `re.sub(r'[^\w]', '', numbering)` and the cleaned
string is classified; only the roman row carries `re.IGNORECASE`. -/

/-- `determine_level` of
`src/.history/src/direct_text_matcher_20250731115057.py` (lines 218-236). -/
def determine_level (numbering : List Char) : Option Nat :=
  let cn := numbering.filter isWordC
  if cn.all isDigitC && 2 ≤ cn.length && cn.getLast? == some '0' then some 0
  else if cn.all isDigitC && 2 ≤ cn.length then some 1
  else if !cn.isEmpty && cn.all isUpperC then some 2
  else if !cn.isEmpty && cn.all isDigitC then some 3
  else if !cn.isEmpty && cn.all isLowerC then some 4
  else if !cn.isEmpty && cn.all isRomanCI then some 5
  else none

/-! ## Level patterns of `simple_enhanced_analyzer.assign_levels`

`src/.history/src/simple_enhanced_analyzer_20250808112058.py` (lines 118-145,
same table as `src/src/enhanced_list_analyzer.py` lines 71-84): six prefix
regexes, each demanding one whitespace character right after the numbering
form (`re.match`, prefix matching, no end anchor, no flags). -/

/-- Regex `^\d+\.0\s` as a prefix matcher. -/
def mND0ws (l : List Char) : Bool :=
  !(l.takeWhile isDigitC).isEmpty &&
    (match l.dropWhile isDigitC with
     | '.' :: '0' :: c :: _ => isPySpace c
     | _ => false)

/-- Regex `^\d+\.\d{2}\s` as a prefix matcher. -/
def mNDDws (l : List Char) : Bool :=
  !(l.takeWhile isDigitC).isEmpty &&
    (match l.dropWhile isDigitC with
     | '.' :: a :: b :: c :: _ => isDigitC a && isDigitC b && isPySpace c
     | _ => false)

/-- Regex `^[A-Z]\.\s` as a prefix matcher. -/
def mULws (l : List Char) : Bool :=
  match l with
  | c :: '.' :: s :: _ => isUpperC c && isPySpace s
  | _ => false

/-- Regex `^\d+\.\s` as a prefix matcher. -/
def mNDws (l : List Char) : Bool :=
  !(l.takeWhile isDigitC).isEmpty &&
    (match l.dropWhile isDigitC with
     | '.' :: s :: _ => isPySpace s
     | _ => false)

/-- Regex `^[a-z]\.\s` as a prefix matcher. -/
def mLLws (l : List Char) : Bool :=
  match l with
  | c :: '.' :: s :: _ => isLowerC c && isPySpace s
  | _ => false

/-- Regex `^[ivx]+\.\s` as a prefix matcher. -/
def mRomanIVXws (l : List Char) : Bool :=
  !(l.takeWhile isRomanIVX).isEmpty &&
    (match l.dropWhile isRomanIVX with
     | '.' :: s :: _ => isPySpace s
     | _ => false)

/-- The level-pattern lookup inside `assign_levels` of
`simple_enhanced_analyzer.py`: first matching pattern of the `level_patterns`
dict (insertion order) wins. -/
def inferLevelSE (numbering : List Char) : Option Nat :=
  if mND0ws numbering then some 0
  else if mNDDws numbering then some 1
  else if mULws numbering then some 2
  else if mNDws numbering then some 3
  else if mLLws numbering then some 4
  else if mRomanIVXws numbering then some 5
  else none

/-! ## `extract_numbering_from_line` of `direct_text_matcher.py` (lines 164-195) -/

/-- Python `line.split(sep, 1)` when `sep in line`: split at the first
occurrence of the separator, returning the parts before and after it. -/
def splitOnce (sep : List Char) : List Char → Option (List Char × List Char)
  | [] => none
  | c :: r =>
      if sep.isPrefixOf (c :: r) then some ([], (c :: r).drop sep.length)
      else (splitOnce sep r).map fun p => (c :: p.1, p.2)

/-- The separator list of `extract_numbering_from_line`:
tab, two spaces, and the dash/paren/bracket pairs. -/
def sepList : List (List Char) :=
  [['\t'], [' ', ' '], [' ', '-', ' '], [' ', '-'], ['-', ' '],
   [' ', ')'], [')', ' '], [' ', ']'], [']', ' ']]

/-- The separator stage: for each separator in order, split once at its first
occurrence; accept the split when the stripped left part looks like numbering,
otherwise try the next separator. -/
def trySeps : List (List Char) → List Char → Option (List Char × List Char)
  | [], _ => none
  | sep :: rest, line =>
      match splitOnce sep line with
      | some (a, b) =>
          let pn := stripL a
          let pc := stripL b
          if looks_like_numbering pn then some (pn, pc) else trySeps rest line
      | none => trySeps rest line

/-- Regex `(.+)` applied at a position: succeeds when the next character
exists and is not a newline; the group greedily takes every character up to
the next newline. -/
def dotPlusGroup : List Char → Option (List Char)
  | [] => none
  | c :: r => if c == '\n' then none else some (c :: r.takeWhile (fun d => !(d == '\n')))

/-- Regex tail `\s+(.+)`: the whitespace run is matched greedily and
backtracks one character at a time until `(.+)` can match. -/
def wsContent : List Char → Option (List Char)
  | [] => none
  | c :: r =>
      if isPySpace c then
        match wsContent r with
        | some g => some g
        | none => dotPlusGroup r
      else none

/-- Fallback regex `^(\d+\.0)\s+(.+)` of `extract_numbering_from_line`
(with `re.IGNORECASE`, irrelevant here). -/
def fpND0 (l : List Char) : Option (List Char × List Char) :=
  let ds := l.takeWhile isDigitC
  if ds.isEmpty then none
  else
    match l.dropWhile isDigitC with
    | '.' :: '0' :: r => (wsContent r).map fun g => (ds ++ ['.', '0'], g)
    | _ => none

/-- Fallback regex `^(\d+\.\d+)\s+(.+)`. -/
def fpNDD (l : List Char) : Option (List Char × List Char) :=
  let ds := l.takeWhile isDigitC
  if ds.isEmpty then none
  else
    match l.dropWhile isDigitC with
    | '.' :: r2 =>
        let ms := r2.takeWhile isDigitC
        if ms.isEmpty then none
        else (wsContent (r2.dropWhile isDigitC)).map fun g => (ds ++ '.' :: ms, g)
    | _ => none

/-- Fallback regex `^([A-Z]\.)\s+(.+)`; `re.IGNORECASE` turns `[A-Z]` into
any ASCII letter. -/
def fpULci (l : List Char) : Option (List Char × List Char) :=
  match l with
  | c :: '.' :: r =>
      if isAlphaC c then (wsContent r).map fun g => ([c, '.'], g) else none
  | _ => none

/-- Fallback regex `^(\d+\.)\s+(.+)`. -/
def fpND (l : List Char) : Option (List Char × List Char) :=
  let ds := l.takeWhile isDigitC
  if ds.isEmpty then none
  else
    match l.dropWhile isDigitC with
    | '.' :: r => (wsContent r).map fun g => (ds ++ ['.'], g)
    | _ => none

/-- Fallback regex `^([a-z]\.)\s+(.+)`; with `re.IGNORECASE` it equals the
`[A-Z]` row. -/
def fpLLci (l : List Char) : Option (List Char × List Char) := fpULci l

/-- Fallback regex `^([ivxlcdm]+\.)\s+(.+)` with `re.IGNORECASE`. -/
def fpRoman (l : List Char) : Option (List Char × List Char) :=
  let rs := l.takeWhile isRomanCI
  if rs.isEmpty then none
  else
    match l.dropWhile isRomanCI with
    | '.' :: r => (wsContent r).map fun g => (rs ++ ['.'], g)
    | _ => none

/-- `extract_numbering_from_line` of
`src/.history/src/direct_text_matcher_20250731115057.py` (lines 164-195):
the separator stage first, then the six fallback prefix regexes in order.
The separator stage returns stripped parts; the fallback stage returns the
raw capture groups. -/
def extract_numbering_from_line (line : List Char) : Option (List Char × List Char) :=
  match trySeps sepList line with
  | some p => some p
  | none =>
  match fpND0 line with
  | some p => some p
  | none =>
  match fpNDD line with
  | some p => some p
  | none =>
  match fpULci line with
  | some p => some p
  | none =>
  match fpND line with
  | some p => some p
  | none =>
  match fpLLci line with
  | some p => some p
  | none => fpRoman line

/-! ## The classification pass

Input and output records of the Outline Classifier.  The per-record pass
composes the cited sources: token selection and inference follow
`extract_numbered_paragraphs` of `hybrid_numbering_detector_20250731124530.py`
(lines 112-127: explicit `list_number` first, else `deduce_numbering_from_text`
on nonblank text) and `analyze_enhanced_structure` of
`simple_enhanced_analyzer_20250808112058.py` (lines 25-48: `numbering :=
list_number or inferred_number`, `is_list_item := bool(numbering)`,
`cleaned_content := clean_content(text, numbering)`), and level assignment
follows `assign_levels` of the same file (lines 118-145: for list items the
first matching level pattern, else the record's own level, else the default
level 0; non-list items keep the record's own level). -/

structure ParagraphRecord where
  index : Nat
  rawText : List Char
  explicitNumbering : Option (List Char)
  explicitLevel : Option Nat
  deriving DecidableEq, Repr

inductive NumberingSource where
  | EXPLICIT
  | INFERRED
  | NONE
  deriving DecidableEq, Repr

structure ClassifiedParagraph where
  index : Nat
  rawText : List Char
  explicitNumbering : Option (List Char)
  explicitLevel : Option Nat
  numberingToken : Option (List Char)
  numberingSource : NumberingSource
  level : Option Nat
  cleanedContent : List Char
  isListItem : Bool
  deriving DecidableEq, Repr

/-- The `list_number` field: the explicit numbering, with the empty string
behaving as absent as in the Python truthiness tests. -/
def listNumberOf (r : ParagraphRecord) : List Char := r.explicitNumbering.getD []

/-- The `inferred_number` field: deduced from the text only when no explicit
numbering exists and the text is not blank
(`hybrid_numbering_detector_20250731124530.py` lines 120-126). -/
def inferredOf (r : ParagraphRecord) : Option (List Char) :=
  if (listNumberOf r).isEmpty && !(stripL r.rawText).isEmpty then
    deduce_numbering_from_text r.rawText
  else none

/-- The `numbering` value of `analyze_enhanced_structure` (line 27):
`list_number or inferred_number`. -/
def numberingOf (r : ParagraphRecord) : List Char :=
  if (listNumberOf r).isEmpty then (inferredOf r).getD [] else listNumberOf r

/-- The provenance of the numbering token. -/
def sourceOf (r : ParagraphRecord) : NumberingSource :=
  if !(listNumberOf r).isEmpty then NumberingSource.EXPLICIT
  else if (inferredOf r).isSome then NumberingSource.INFERRED
  else NumberingSource.NONE

/-- The output level, following `assign_levels` of
`simple_enhanced_analyzer.py` (lines 136-145): list items take the first
matching level pattern, else the record's own level, else the default 0;
non-list items keep the record's own level. -/
def levelOf (r : ParagraphRecord) : Option Nat :=
  if (numberingOf r).isEmpty then r.explicitLevel
  else
    match inferLevelSE (numberingOf r) with
    | some v => some v
    | none =>
        match r.explicitLevel with
        | some e => some e
        | none => some 0

/-- Classification of one paragraph record (see the section comment above for
the source lines each step is taken from). -/
def classify1 (r : ParagraphRecord) : ClassifiedParagraph :=
  { index := r.index
    rawText := r.rawText
    explicitNumbering := r.explicitNumbering
    explicitLevel := r.explicitLevel
    numberingToken := if (numberingOf r).isEmpty then none else some (numberingOf r)
    numberingSource := sourceOf r
    level := levelOf r
    cleanedContent := clean_content r.rawText (numberingOf r)
    isListItem := !(numberingOf r).isEmpty }

/-- The full pass: one output per input, in order, no cross-record state. -/
def classify (records : List ParagraphRecord) : List ClassifiedParagraph :=
  records.map classify1

/-! ## Definitions taken from the specification's words

These are not translations of the source: they formalize what the checked
claims literally assert, to be compared with the source functions above. -/

/-- The claim's pattern table for `classifyToken`, rows in the claimed order
with first-match-wins: `N.0` at level 0, `N.NN` (exactly two digits after the
dot) at level 1, a single uppercase letter with period at level 2, `N.` at
level 3, a single lowercase letter with period at level 4, and a lowercase
roman numeral with period at level 5. -/
def claimedClassifyToken (token : List Char) : Option Nat :=
  let ds := token.takeWhile isDigitC
  if !ds.isEmpty && token.dropWhile isDigitC == ['.', '0'] then some 0
  else if !ds.isEmpty &&
      (match token.dropWhile isDigitC with
       | ['.', a, b] => isDigitC a && isDigitC b
       | _ => false) then some 1
  else if (match token with | [c, d] => isUpperC c && d == '.' | _ => false) then some 2
  else if !ds.isEmpty && token.dropWhile isDigitC == ['.'] then some 3
  else if (match token with | [c, d] => isLowerC c && d == '.' | _ => false) then some 4
  else if !(token.takeWhile isRomanLower).isEmpty &&
      token.dropWhile isRomanLower == ['.'] then some 5
  else none

/-- The claim's `looksLikeNumbering`: strip all non-alphanumeric characters
(underscores included in the strip), then accept purely-digits,
purely-uppercase, purely-lowercase, purely roman letters (case-insensitive),
digits-then-letters, or letters-then-digits. -/
def claimedLooksLikeNumbering (s : List Char) : Bool :=
  let t := s.filter (fun c => isAlphaC c || isDigitC c)
  llnDigits t ||
    (!t.isEmpty && t.all isUpperC) ||
    (!t.isEmpty && t.all isLowerC) ||
    llnRoman t ||
    llnDigitsLetters t ||
    llnLettersDigits t

/-- The claim's predicted cleaned content when the token occurs verbatim at
the start of the raw text: the raw text with the token and the single
immediately following run of whitespace/tab removed, and nothing else. -/
def claimedCleanedStart (text numbering : List Char) : List Char :=
  (text.drop numbering.length).dropWhile isPySpace

/-- The `looksLikeNumbering` contract amended to what the source does: the
strip keeps underscores (Python `\w`), and every pattern is matched with
`re.IGNORECASE`, collapsing the purely-uppercase and purely-lowercase rows
into a single any-letters row and making the remaining rows case-blind. -/
def amendedLooksLikeNumbering (s : List Char) : Bool :=
  let t := s.filter isWordC
  llnDigits t || llnUpper t || llnRoman t || llnDigitsLetters t || llnLettersDigits t

/-! ## Concrete inputs used by counterexamples and witnesses -/

/-- The raw text `"hello"`. -/
def rawHello : List Char := ['h', 'e', 'l', 'l', 'o']

/-- A record with a caller-supplied explicit level but no numbering at all. -/
def recLevelNoToken : ParagraphRecord := ⟨0, rawHello, none, some 2⟩

/-- The raw text `"A. Site preparation"`. -/
def rawUpperItem : List Char :=
  ['A', '.', ' ', 'S', 'i', 't', 'e', ' ', 'p', 'r', 'e', 'p', 'a', 'r', 'a', 't',
   'i', 'o', 'n']

/-- A plain list-item record with no explicit metadata. -/
def recUpperItem : ParagraphRecord := ⟨0, rawUpperItem, none, none⟩

/-- A record carrying explicit numbering `"9.9"` over a raw text `"1.0 x"`
whose own prefix would extract a different token. -/
def recExplicitOverText : ParagraphRecord :=
  ⟨0, ['1', '.', '0', ' ', 'x'], some ['9', '.', '9'], none⟩

/-- A whitespace-only record: one space and one tab, no explicit fields. -/
def recBlank : ParagraphRecord := ⟨0, [' ', '\t'], none, none⟩

/-- The raw text `"1.0 x "` — a numbering prefix whose remainder ends in a
space. -/
def textTrailingWs : List Char := ['1', '.', '0', ' ', 'x', ' ']

/-- The token `"1.0"`. -/
def tokOneDotZero : List Char := ['1', '.', '0']

/-- The raw text `"1.0\tFoundation requirements apply."`. -/
def textFoundation : List Char :=
  ['1', '.', '0', '\t', 'F', 'o', 'u', 'n', 'd', 'a', 't', 'i', 'o', 'n', ' ',
   'r', 'e', 'q', 'u', 'i', 'r', 'e', 'm', 'e', 'n', 't', 's', ' ',
   'a', 'p', 'p', 'l', 'y', '.']

/-- The content `"Foundation requirements apply."`. -/
def contentFoundation : List Char :=
  ['F', 'o', 'u', 'n', 'd', 'a', 't', 'i', 'o', 'n', ' ',
   'r', 'e', 'q', 'u', 'i', 'r', 'e', 'm', 'e', 'n', 't', 's', ' ',
   'a', 'p', 'p', 'l', 'y', '.']

/-- The line `"1.0 2.0 Items"` — a single-level numbering prefix whose
content itself starts with a numbering form. -/
def lineTwoTokens : List Char :=
  ['1', '.', '0', ' ', '2', '.', '0', ' ', 'I', 't', 'e', 'm', 's']

/-- The raw text `"(a) Excavate to depth"` of the spec's scenario 4. -/
def textParenA : List Char :=
  ['(', 'a', ')', ' ', 'E', 'x', 'c', 'a', 'v', 'a', 't', 'e', ' ', 't', 'o',
   ' ', 'd', 'e', 'p', 't', 'h']

/-- The record for the spec's scenario 4, no explicit fields. -/
def recParenA : ParagraphRecord := ⟨0, textParenA, none, none⟩

/-! ## Helper lemmas -/

theorem takeWhile_append_of_all {α} {p : α → Bool} {l : List α} (h : l.all p = true)
    (r : List α) : (l ++ r).takeWhile p = l ++ r.takeWhile p := by
  induction l with
  | nil => simp
  | cons a t ih =>
      simp only [List.all_cons, Bool.and_eq_true] at h
      simp [List.takeWhile_cons_of_pos h.1, ih h.2]

theorem dropWhile_append_of_all {α} {p : α → Bool} {l : List α} (h : l.all p = true)
    (r : List α) : (l ++ r).dropWhile p = r.dropWhile p := by
  induction l with
  | nil => simp
  | cons a t ih =>
      simp only [List.all_cons, Bool.and_eq_true] at h
      simp [List.dropWhile_cons_of_pos h.1, ih h.2]

theorem isUpperC_not_digitC {c : Char} (h : isUpperC c = true) : isDigitC c = false := by
  simp only [isUpperC, Bool.and_eq_true, decide_eq_true_eq] at h
  simp only [isDigitC, Bool.and_eq_false_iff, decide_eq_false_iff_not]
  omega

theorem isLowerC_not_digitC {c : Char} (h : isLowerC c = true) : isDigitC c = false := by
  simp only [isLowerC, Bool.and_eq_true, decide_eq_true_eq] at h
  simp only [isDigitC, Bool.and_eq_false_iff, decide_eq_false_iff_not]
  omega

theorem isRomanCI_elim {c : Char} (h : isRomanCI c = true) :
    c = 'i' ∨ c = 'v' ∨ c = 'x' ∨ c = 'l' ∨ c = 'c' ∨ c = 'd' ∨ c = 'm' ∨
    c = 'I' ∨ c = 'V' ∨ c = 'X' ∨ c = 'L' ∨ c = 'C' ∨ c = 'D' ∨ c = 'M' := by
  simp only [isRomanCI, Bool.or_eq_true, beq_iff_eq] at h
  tauto

theorem isRomanCI_not_digitC {c : Char} (h : isRomanCI c = true) : isDigitC c = false := by
  rcases isRomanCI_elim h with h | h | h | h | h | h | h | h | h | h | h | h | h | h <;>
    subst h <;> decide

theorem isRomanCI_alphaC {c : Char} (h : isRomanCI c = true) : isAlphaC c = true := by
  rcases isRomanCI_elim h with h | h | h | h | h | h | h | h | h | h | h | h | h | h <;>
    subst h <;> decide

theorem rstripL_eq_rdropWhile (l : List Char) : rstripL l = l.rdropWhile isPySpace := rfl

theorem lstripL_idem (l : List Char) : lstripL (lstripL l) = lstripL l :=
  List.dropWhile_idempotent isPySpace l

theorem rstripL_idem (l : List Char) : rstripL (rstripL l) = rstripL l := by
  simpa only [rstripL_eq_rdropWhile] using List.rdropWhile_idempotent isPySpace l

theorem head_not_space_of_lstripped {a : Char} {u : List Char}
    (h : lstripL (a :: u) = a :: u) : isPySpace a = false := by
  by_contra hc
  rw [Bool.not_eq_false] at hc
  rw [lstripL, List.dropWhile_cons_of_pos hc] at h
  have h1 : (u.dropWhile isPySpace).length ≤ u.length :=
    (List.dropWhile_sublist isPySpace).length_le
  have h2 := congrArg List.length h
  simp only [List.length_cons] at h2
  omega

theorem lstripL_rstripL_of_lstripped {m : List Char} (h : lstripL m = m) :
    lstripL (rstripL m) = rstripL m := by
  rcases h' : rstripL m with _ | ⟨a, u⟩
  · rfl
  · obtain ⟨t, ht⟩ := (rstripL_eq_rdropWhile m ▸ List.rdropWhile_prefix isPySpace m)
    rw [h'] at ht
    rw [← ht] at h
    simp only [List.cons_append] at h
    have hsp : isPySpace a = false := head_not_space_of_lstripped h
    show lstripL (a :: u) = a :: u
    rw [lstripL, List.dropWhile_cons_of_neg (by simp [hsp])]

theorem stripL_idem (l : List Char) : stripL (stripL l) = stripL l := by
  unfold stripL
  rw [lstripL_rstripL_of_lstripped (lstripL_idem l), rstripL_idem]

theorem lstripL_stripL (l : List Char) : lstripL (stripL l) = stripL l :=
  lstripL_rstripL_of_lstripped (lstripL_idem l)

theorem stripL_of_lstripped {m : List Char} (h : lstripL m = m) : stripL m = rstripL m := by
  unfold stripL
  rw [h]

theorem lstripL_of_stripped {c : List Char} (h : stripL c = c) : lstripL c = c := by
  have h1 : (lstripL c).length ≤ c.length := (List.dropWhile_sublist isPySpace).length_le
  have h2 : (rstripL (lstripL c)).length ≤ (lstripL c).length :=
    ((rstripL_eq_rdropWhile (lstripL c) ▸
      List.rdropWhile_prefix isPySpace (lstripL c)).sublist).length_le
  have h3 : c.length ≤ (lstripL c).length := by
    conv_lhs => rw [← h]
    exact h2
  exact (List.dropWhile_sublist isPySpace).eq_of_length (Nat.le_antisymm h1 h3)

theorem rstripL_of_stripped {c : List Char} (h : stripL c = c) : rstripL c = c := by
  conv_rhs => rw [← h]
  rw [stripL, lstripL_of_stripped h]

/-- Every branch of `clean_content` ends in Python's `.strip()`, so the result
is already stripped. -/
theorem clean_content_stripped (text numbering : List Char) :
    stripL (clean_content text numbering) = clean_content text numbering := by
  unfold clean_content
  split_ifs <;> exact stripL_idem _

theorem pNumDotNum_ne_nil {l g : List Char} (h : pNumDotNum l = some g) : g ≠ [] := by
  intro hg
  subst hg
  unfold pNumDotNum at h
  dsimp only at h
  repeat' split at h
  all_goals simp_all

theorem pNumDot_ne_nil {l g : List Char} (h : pNumDot l = some g) : g ≠ [] := by
  intro hg
  subst hg
  unfold pNumDot at h
  dsimp only at h
  repeat' split at h
  all_goals simp_all

theorem pUpperDot_ne_nil {l g : List Char} (h : pUpperDot l = some g) : g ≠ [] := by
  intro hg
  subst hg
  unfold pUpperDot at h
  repeat' split at h
  all_goals simp_all

theorem pLowerDot_ne_nil {l g : List Char} (h : pLowerDot l = some g) : g ≠ [] := by
  intro hg
  subst hg
  unfold pLowerDot at h
  repeat' split at h
  all_goals simp_all

theorem pParenNum_ne_nil {l g : List Char} (h : pParenNum l = some g) : g ≠ [] := by
  intro hg
  subst hg
  unfold pParenNum at h
  dsimp only at h
  repeat' split at h
  all_goals simp_all

theorem pParenUpper_ne_nil {l g : List Char} (h : pParenUpper l = some g) : g ≠ [] := by
  intro hg
  subst hg
  unfold pParenUpper at h
  repeat' split at h
  all_goals simp_all

theorem pParenLower_ne_nil {l g : List Char} (h : pParenLower l = some g) : g ≠ [] := by
  intro hg
  subst hg
  unfold pParenLower at h
  repeat' split at h
  all_goals simp_all

/-- A token inferred by `deduce_numbering_from_text` is never the empty
string: every capture group contains at least its punctuation. -/
theorem deduce_ne_nil {t g : List Char} (h : deduce_numbering_from_text t = some g) :
    g ≠ [] := by
  unfold deduce_numbering_from_text at h
  dsimp only at h
  split_ifs at h
  rcases h1 : pNumDotNum (stripL t) with _ | g1 <;> rw [h1] at h
  · rcases h2 : pNumDot (stripL t) with _ | g2 <;> rw [h2] at h
    · rcases h3 : pUpperDot (stripL t) with _ | g3 <;> rw [h3] at h
      · rcases h4 : pLowerDot (stripL t) with _ | g4 <;> rw [h4] at h
        · rcases h5 : pParenNum (stripL t) with _ | g5 <;> rw [h5] at h
          · rcases h6 : pParenUpper (stripL t) with _ | g6 <;> rw [h6] at h
            · exact pParenLower_ne_nil h
            · cases h; exact pParenUpper_ne_nil h6
          · cases h; exact pParenNum_ne_nil h5
        · cases h; exact pLowerDot_ne_nil h4
      · cases h; exact pUpperDot_ne_nil h3
    · cases h; exact pNumDot_ne_nil h2
  · cases h; exact pNumDotNum_ne_nil h1

/-! ## Claim theorems -/

/-- Claim C10: every `cleanedContent` produced by the classifier carries no
leading or trailing whitespace — it equals the result of trimming itself — in
every branch of content cleaning (token removed from the start, token not
found verbatim, or no token at all). -/
theorem claim_C10_cleaned_always_trimmed (r : ParagraphRecord) :
    stripL ((classify1 r).cleanedContent) = (classify1 r).cleanedContent :=
  clean_content_stripped r.rawText (numberingOf r)

/-- Claim C5: the classification pass is total (it is a total Lean function by
construction, with no exceptional exit); a no-match outcome is encoded as the
`NONE` source together with an absent `numberingToken` (second conjunct), and
an empty or whitespace-only `rawText` with no explicit numbering yields
`isListItem = false` and an empty `cleanedContent` (first conjunct). -/
theorem claim_C5_totality :
    (∀ r : ParagraphRecord, r.explicitNumbering = none → stripL r.rawText = [] →
      (classify1 r).isListItem = false ∧ (classify1 r).cleanedContent = []) ∧
    (∀ r : ParagraphRecord,
      ((classify1 r).numberingSource = NumberingSource.NONE ↔
        (classify1 r).numberingToken = none)) := by
  constructor
  · intro r h1 h2
    have hl : listNumberOf r = [] := by simp [listNumberOf, h1]
    have hi : inferredOf r = none := by simp [inferredOf, h2]
    have hn : numberingOf r = [] := by simp [numberingOf, hl, hi]
    constructor
    · simp [classify1, hn]
    · simp [classify1, hn, clean_content, h2]
  · intro r
    by_cases hl : (listNumberOf r).isEmpty
    · by_cases hi : (inferredOf r).isSome
      · obtain ⟨g, hg⟩ := Option.isSome_iff_exists.mp hi
        have hgne : g ≠ [] := by
          unfold inferredOf at hg
          split_ifs at hg
          exact deduce_ne_nil hg
        have hn : numberingOf r = g := by simp [numberingOf, hl, hg]
        simp [classify1, sourceOf, hl, hg, hn, hgne]
      · have hin : inferredOf r = none := Option.not_isSome_iff_eq_none.mp hi
        have hn : numberingOf r = [] := by simp [numberingOf, hl, hin]
        simp [classify1, sourceOf, hl, hin, hn]
    · have hn : numberingOf r = listNumberOf r := by simp [numberingOf, hl]
      have hne : listNumberOf r ≠ [] := by
        intro hc
        rw [hc] at hl
        exact hl rfl
      simp [classify1, sourceOf, hl, hn, hne]

/-- Witness for C5 at the whitespace-only record `" \t"`. -/
theorem claim_C5_witness :
    (classify1 recBlank).isListItem = false ∧ (classify1 recBlank).cleanedContent = [] :=
  claim_C5_totality.1 recBlank rfl (by decide)

/-- Claim C3: whenever `explicitNumbering` is present on the input record, the
produced `numberingToken` equals it and `numberingSource` is `EXPLICIT` —
whatever the raw text would have yielded. -/
theorem claim_C3_explicit_precedence :
    ∀ (rs : List ParagraphRecord) (cp : ClassifiedParagraph), cp ∈ classify rs →
      ∀ tok, cp.explicitNumbering = some tok → tok ≠ [] →
        cp.numberingToken = some tok ∧ cp.numberingSource = NumberingSource.EXPLICIT := by
  intro rs cp hmem tok h1 h2
  obtain ⟨r, _hr, rfl⟩ := List.mem_map.mp hmem
  have he : r.explicitNumbering = some tok := h1
  have hl : listNumberOf r = tok := by simp [listNumberOf, he]
  have hne : (listNumberOf r).isEmpty = false := by
    rw [hl]
    cases tok
    · exact absurd rfl h2
    · rfl
  constructor
  · simp [classify1, numberingOf, hne, hl, h2]
  · simp [classify1, sourceOf, hne]

/-- Witness for C3: explicit token `"9.9"` wins over the raw text
`"1.0 x"`, whose own prefix would extract `"1.0"`. -/
theorem claim_C3_witness :
    (classify1 recExplicitOverText).numberingToken = some ['9', '.', '9'] ∧
    (classify1 recExplicitOverText).numberingSource = NumberingSource.EXPLICIT :=
  claim_C3_explicit_precedence [recExplicitOverText] (classify1 recExplicitOverText)
    (by simp [classify]) ['9', '.', '9'] rfl (by decide)

/-- Claim C1 as stated is false: a record carrying a caller-supplied
`explicitLevel` but no numbering keeps its level in the output, so a level
appears without any numbering token. -/
theorem claim_C1_counterexample :
    (classify1 recLevelNoToken).level = some 2 ∧
      (classify1 recLevelNoToken).numberingToken = none := by
  decide

/-- Claim C1 amended: for records that carry no caller-supplied
`explicitLevel`, the output `level` is defined if and only if
`numberingToken` is defined. -/
theorem claim_C1_amended :
    ∀ (rs : List ParagraphRecord) (cp : ClassifiedParagraph), cp ∈ classify rs →
      cp.explicitLevel = none → (cp.level.isSome ↔ cp.numberingToken.isSome) := by
  intro rs cp hmem h1
  obtain ⟨r, _hr, rfl⟩ := List.mem_map.mp hmem
  have he : r.explicitLevel = none := h1
  by_cases hn : (numberingOf r).isEmpty
  · simp [classify1, levelOf, hn, he]
  · simp only [classify1, levelOf, hn, he, Bool.false_eq_true, if_false]
    cases hv : inferLevelSE (numberingOf r) <;> simp [hv]

/-- Witness for the amended C1 at the record `"A. Site preparation"`. -/
theorem claim_C1_witness :
    ((classify1 recUpperItem).level.isSome ↔ (classify1 recUpperItem).numberingToken.isSome) :=
  claim_C1_amended [recUpperItem] (classify1 recUpperItem) (by simp [classify]) (by decide)

theorem inferLevelSE_le5 {s : List Char} {l : Nat} (h : inferLevelSE s = some l) :
    l ≤ 5 := by
  unfold inferLevelSE at h
  split_ifs at h <;> simp_all <;> omega

/-- Claim C9: every level the classifier itself infers lies in 0..5 — for the
token classifier `determine_level_from_numbering`, for `determine_level` of
`direct_text_matcher.py`, for the `level_patterns` lookup of
`simple_enhanced_analyzer.py`, and for the whole pass on any record without a
caller-supplied `explicitLevel`. -/
theorem claim_C9_levels_bounded :
    (∀ s l, determine_level_from_numbering s = some l → l ≤ 5) ∧
    (∀ s l, determine_level s = some l → l ≤ 5) ∧
    (∀ s l, inferLevelSE s = some l → l ≤ 5) ∧
    (∀ (r : ParagraphRecord) l, r.explicitLevel = none →
      (classify1 r).level = some l → l ≤ 5) := by
  refine ⟨fun s l h => ?_, fun s l h => ?_, fun s l h => inferLevelSE_le5 h,
    fun r l he h => ?_⟩
  · unfold determine_level_from_numbering at h
    split_ifs at h <;> simp_all <;> omega
  · unfold determine_level at h
    dsimp only at h
    split_ifs at h <;> simp_all <;> omega
  · have h' : levelOf r = some l := h
    unfold levelOf at h'
    split_ifs at h'
    · rw [he] at h'
      cases h'
    · cases hv : inferLevelSE (numberingOf r) <;> rw [hv] at h'
      · rw [he] at h'
        simp only [Option.some.injEq] at h'
        omega
      · simp only [Option.some.injEq] at h'
        subst h'
        exact inferLevelSE_le5 hv

/-- Witness for C9: each conjunct applied at a concrete input. -/
theorem claim_C9_witness :
    (0 : Nat) ≤ 5 ∧ (1 : Nat) ≤ 5 ∧ (0 : Nat) ≤ 5 ∧ (0 : Nat) ≤ 5 :=
  ⟨claim_C9_levels_bounded.1 tokOneDotZero 0 (by decide),
   claim_C9_levels_bounded.2.1 ['1', '1'] 1 (by decide),
   claim_C9_levels_bounded.2.2.1 ['1', '.', '0', ' '] 0 (by decide),
   claim_C9_levels_bounded.2.2.2 recUpperItem 0 rfl (by decide)⟩

/-- Claim C4 as stated is false: on `"1.0 x "` with token `"1.0"` the source
also right-trims the remainder, producing `"x"` where the claim predicts
`"x "`. -/
theorem claim_C4_counterexample :
    clean_content textTrailingWs tokOneDotZero = ['x'] ∧
      clean_content textTrailingWs tokOneDotZero ≠
        claimedCleanedStart textTrailingWs tokOneDotZero := by
  decide

/-- Claim C4 amended: when the token occurs verbatim at the start of the raw
text, `cleanedContent` is the raw text with the token and the following
whitespace run removed and the remainder right-trimmed; when it does not,
`cleanedContent` is the raw text trimmed, unchanged. -/
theorem claim_C4_amended :
    ∀ text tok : List Char, tok ≠ [] →
      (tok.isPrefixOf text = true →
        clean_content text tok = rstripL (claimedCleanedStart text tok)) ∧
      (tok.isPrefixOf text = false → clean_content text tok = stripL text) := by
  intro text tok h
  have hne : tok.isEmpty = false := by
    cases tok
    · exact absurd rfl h
    · rfl
  constructor
  · intro hp
    simp only [clean_content, hne, hp, Bool.false_eq_true, if_false, if_true]
    exact stripL_of_lstripped (List.dropWhile_idempotent _ _)
  · intro hp
    simp [clean_content, hne, hp]

/-- Witness for the amended C4 at `"1.0\tFoundation requirements apply."`. -/
theorem claim_C4_witness :
    clean_content textFoundation tokOneDotZero =
      rstripL (claimedCleanedStart textFoundation tokOneDotZero) :=
  (claim_C4_amended textFoundation tokOneDotZero (by decide)).1 (by decide)

/-- Claim C6 as stated is false: `"aB"` mixes cases, so the claim's contract
rejects it, but the source matches every pattern under `re.IGNORECASE` and
accepts it; `"1_"` strips to pure digits under the claim's contract, but the
source's `\w`-strip keeps the underscore and rejects it. -/
theorem claim_C6_counterexample :
    looks_like_numbering ['a', 'B'] ≠ claimedLooksLikeNumbering ['a', 'B'] ∧
      looks_like_numbering ['1', '_'] ≠ claimedLooksLikeNumbering ['1', '_'] := by
  decide

/-- Claim C6 amended: `looksLikeNumbering` strips every character that is not
alphanumeric or underscore, and accepts exactly the nonempty results that
are, case-insensitively, purely digits, purely letters, purely roman-numeral
letters, digits-then-letters, or letters-then-digits. -/
theorem claim_C6_amended :
    ∀ s : List Char, looks_like_numbering s = amendedLooksLikeNumbering s := by
  intro s
  unfold looks_like_numbering amendedLooksLikeNumbering
  have hll : llnLower = llnUpper := rfl
  rw [hll]
  cases hu : llnUpper (s.filter isWordC) <;> simp [hu]

theorem isDigitC_not_upperC {c : Char} (h : isDigitC c = true) : isUpperC c = false := by
  simp only [isDigitC, Bool.and_eq_true, decide_eq_true_eq] at h
  simp only [isUpperC, Bool.and_eq_false_iff, decide_eq_false_iff_not]
  omega

theorem isDigitC_not_lowerC {c : Char} (h : isDigitC c = true) : isLowerC c = false := by
  simp only [isDigitC, Bool.and_eq_true, decide_eq_true_eq] at h
  simp only [isLowerC, Bool.and_eq_false_iff, decide_eq_false_iff_not]
  omega

theorem isLowerC_not_upperC {c : Char} (h : isLowerC c = true) : isUpperC c = false := by
  simp only [isLowerC, Bool.and_eq_true, decide_eq_true_eq] at h
  simp only [isUpperC, Bool.and_eq_false_iff, decide_eq_false_iff_not]
  omega

theorem matchUL_length {l : List Char} (h : matchUL l = true) : l.length = 2 := by
  rcases l with _ | ⟨a, _ | ⟨b, _ | ⟨c, t⟩⟩⟩ <;> simp_all [matchUL]

theorem matchLL_length {l : List Char} (h : matchLL l = true) : l.length = 2 := by
  rcases l with _ | ⟨a, _ | ⟨b, _ | ⟨c, t⟩⟩⟩ <;> simp_all [matchLL]

/-- Claim C2 as stated is false: the source's roman row carries
`re.IGNORECASE`, so the uppercase roman `"II."` classifies at level 5 where
the claimed table (lowercase roman only) yields NONE; and the source's minor
row is `\d+\.\d+` — any digits after the dot — so `"1.5"` classifies at level
1 where the claimed `N.NN` shape (two digits) yields NONE. -/
theorem claim_C2_counterexample :
    determine_level_from_numbering ['I', 'I', '.'] = some 5 ∧
      claimedClassifyToken ['I', 'I', '.'] = none ∧
      determine_level_from_numbering ['1', '.', '5'] = some 1 ∧
      claimedClassifyToken ['1', '.', '5'] = none := by
  decide

/-- Claim C2 amended: `classifyToken` is a pure first-match-wins lookup over
the ordered six-row table, depending only on the token's form: every `N.0`
token yields level 0; every `N.M` token — any nonempty digit run `M` other
than the bare `0` of the first row — yields level 1; a single uppercase
letter with period yields level 2; `N.` for any digit string `N` yields level
3 (so `"1."`, `"47."` and `"9999."` classify identically); a single lowercase
letter with period yields level 4 (this row also takes the single roman
letters); two or more roman-numeral letters (`i,v,x,l,c,d,m`, either case)
with period yield level 5; a token matching none of the six rows yields
NONE. -/
theorem claim_C2_amended :
    (∀ ds : List Char, ds ≠ [] → ds.all isDigitC = true →
      determine_level_from_numbering (ds ++ ['.', '0']) = some 0) ∧
    (∀ ds ms : List Char, ds ≠ [] → ds.all isDigitC = true →
      ms ≠ [] → ms.all isDigitC = true → ms ≠ ['0'] →
      determine_level_from_numbering (ds ++ '.' :: ms) = some 1) ∧
    (∀ c, isUpperC c = true → determine_level_from_numbering [c, '.'] = some 2) ∧
    (∀ ds : List Char, ds ≠ [] → ds.all isDigitC = true →
      determine_level_from_numbering (ds ++ ['.']) = some 3) ∧
    (∀ c, isLowerC c = true → determine_level_from_numbering [c, '.'] = some 4) ∧
    (∀ rs : List Char, 2 ≤ rs.length → rs.all isRomanCI = true →
      determine_level_from_numbering (rs ++ ['.']) = some 5) ∧
    (∀ s, determine_level_from_numbering s = none ↔
      (matchND0 s = false ∧ matchNDD s = false ∧ matchUL s = false ∧
        matchND s = false ∧ matchLL s = false ∧ matchRomanCI s = false)) := by
  have hdot : isDigitC '.' = false := by decide
  refine ⟨?_, ?_, ?_, ?_, ?_, ?_, ?_⟩
  · intro ds h1 h2
    have ht : (ds ++ ['.', '0']).takeWhile isDigitC = ds := by
      rw [takeWhile_append_of_all h2]
      rw [show List.takeWhile isDigitC ['.', '0'] = [] from by decide]
      simp
    have hd : (ds ++ ['.', '0']).dropWhile isDigitC = ['.', '0'] := by
      rw [dropWhile_append_of_all h2]
      decide
    have hm : matchND0 (ds ++ ['.', '0']) = true := by
      simp [matchND0, ht, hd, h1]
    simp [determine_level_from_numbering, hm]
  · intro ds ms h1 h2 h3 h4 h5
    have ht : (ds ++ '.' :: ms).takeWhile isDigitC = ds := by
      rw [takeWhile_append_of_all h2, List.takeWhile_cons_of_neg (by simp [hdot])]
      simp
    have hd : (ds ++ '.' :: ms).dropWhile isDigitC = '.' :: ms := by
      rw [dropWhile_append_of_all h2, List.dropWhile_cons_of_neg (by simp [hdot])]
    have hm0 : matchND0 (ds ++ '.' :: ms) = false := by
      simp [matchND0, hd, h5]
    have hm1 : matchNDD (ds ++ '.' :: ms) = true := by
      simp [matchNDD, ht, hd, h1, h3, h4]
    simp [determine_level_from_numbering, hm0, hm1]
  · intro c hc
    have hcd : isDigitC c = false := by
      by_cases h : isDigitC c = true
      · rw [isDigitC_not_upperC h] at hc
        cases hc
      · exact Bool.not_eq_true _ ▸ eq_false_of_ne_true h
    have ht : List.takeWhile isDigitC [c, '.'] = [] :=
      List.takeWhile_cons_of_neg (by simp [hcd])
    have h0 : matchND0 [c, '.'] = false := by simp [matchND0, ht]
    have h1 : matchNDD [c, '.'] = false := by simp [matchNDD, ht]
    have h2 : matchUL [c, '.'] = true := by simp [matchUL, hc]
    simp [determine_level_from_numbering, h0, h1, h2]
  · intro ds h1 h2
    have ht : (ds ++ ['.']).takeWhile isDigitC = ds := by
      rw [takeWhile_append_of_all h2]
      rw [show List.takeWhile isDigitC ['.'] = [] from by decide]
      simp
    have hd : (ds ++ ['.']).dropWhile isDigitC = ['.'] := by
      rw [dropWhile_append_of_all h2]
      decide
    have h0 : matchND0 (ds ++ ['.']) = false := by simp [matchND0, hd]
    have h1' : matchNDD (ds ++ ['.']) = false := by simp [matchNDD, hd]
    have h2' : matchUL (ds ++ ['.']) = false := by
      rcases ds with _ | ⟨a, t⟩
      · exact absurd rfl h1
      · rcases t with _ | ⟨b, u⟩
        · have ha : isDigitC a = true := by simpa using h2
          simp [matchUL, isDigitC_not_upperC ha]
        · by_contra hc
          rw [Bool.not_eq_false] at hc
          have := matchUL_length hc
          simp [List.length_append] at this
    have h3 : matchND (ds ++ ['.']) = true := by simp [matchND, ht, hd, h1]
    simp [determine_level_from_numbering, h0, h1', h2', h3]
  · intro c hc
    have hcd : isDigitC c = false := by
      by_cases h : isDigitC c = true
      · rw [isDigitC_not_lowerC h] at hc
        cases hc
      · exact Bool.not_eq_true _ ▸ eq_false_of_ne_true h
    have ht : List.takeWhile isDigitC [c, '.'] = [] :=
      List.takeWhile_cons_of_neg (by simp [hcd])
    have h0 : matchND0 [c, '.'] = false := by simp [matchND0, ht]
    have h1 : matchNDD [c, '.'] = false := by simp [matchNDD, ht]
    have h2 : matchUL [c, '.'] = false := by simp [matchUL, isLowerC_not_upperC hc]
    have h3 : matchND [c, '.'] = false := by simp [matchND, ht]
    have h4 : matchLL [c, '.'] = true := by simp [matchLL, hc]
    simp [determine_level_from_numbering, h0, h1, h2, h3, h4]
  · intro rs hlen hall
    rcases rs with _ | ⟨a, t⟩
    · simp at hlen
    · rcases t with _ | ⟨b, u⟩
      · simp at hlen
      · have ha : isRomanCI a = true := by
          have := hall
          simp [List.all_cons] at this
          exact this.1
        have had : isDigitC a = false := isRomanCI_not_digitC ha
        have ht : ((a :: b :: u) ++ ['.']).takeWhile isDigitC = [] := by
          simp only [List.cons_append]
          exact List.takeWhile_cons_of_neg (by simp [had])
        have h0 : matchND0 ((a :: b :: u) ++ ['.']) = false := by
          unfold matchND0
          rw [ht]
          rfl
        have h1 : matchNDD ((a :: b :: u) ++ ['.']) = false := by
          unfold matchNDD
          rw [ht]
          rfl
        have h3 : matchND ((a :: b :: u) ++ ['.']) = false := by
          unfold matchND
          rw [ht]
          rfl
        have h2 : matchUL ((a :: b :: u) ++ ['.']) = false := by
          by_contra hc
          rw [Bool.not_eq_false] at hc
          have := matchUL_length hc
          simp [List.length_append] at this
        have h4 : matchLL ((a :: b :: u) ++ ['.']) = false := by
          by_contra hc
          rw [Bool.not_eq_false] at hc
          have := matchLL_length hc
          simp [List.length_append] at this
        have h5 : matchRomanCI ((a :: b :: u) ++ ['.']) = true := by
          have htw : ((a :: b :: u) ++ ['.']).takeWhile isRomanCI = a :: b :: u := by
            rw [takeWhile_append_of_all hall]
            rw [show List.takeWhile isRomanCI ['.'] = [] from by decide]
            simp
          have hdw : ((a :: b :: u) ++ ['.']).dropWhile isRomanCI = ['.'] := by
            rw [dropWhile_append_of_all hall]
            decide
          unfold matchRomanCI
          rw [htw, hdw]
          rfl
        simp only [List.cons_append] at h0 h1 h2 h3 h4 h5
        simp [determine_level_from_numbering, h0, h1, h2, h3, h4, h5]
  · intro s
    unfold determine_level_from_numbering
    split_ifs <;> simp_all

/-- Witness for the amended C2: each row applied at a concrete token, and a
no-match token. -/
theorem claim_C2_witness :
    determine_level_from_numbering (['4', '7'] ++ ['.', '0']) = some 0 ∧
      determine_level_from_numbering (['1'] ++ '.' :: ['0', '1']) = some 1 ∧
      determine_level_from_numbering ['A', '.'] = some 2 ∧
      determine_level_from_numbering (['9', '9', '9', '9'] ++ ['.']) = some 3 ∧
      determine_level_from_numbering ['a', '.'] = some 4 ∧
      determine_level_from_numbering (['X', 'V', 'I', 'I'] ++ ['.']) = some 5 ∧
      determine_level_from_numbering ['?'] = none :=
  ⟨claim_C2_amended.1 ['4', '7'] (by decide) (by decide),
   claim_C2_amended.2.1 ['1'] ['0', '1'] (by decide) (by decide) (by decide) (by decide)
     (by decide),
   claim_C2_amended.2.2.1 'A' (by decide),
   claim_C2_amended.2.2.2.1 ['9', '9', '9', '9'] (by decide) (by decide),
   claim_C2_amended.2.2.2.2.1 'a' (by decide),
   claim_C2_amended.2.2.2.2.2.1 ['X', 'V', 'I', 'I'] (by decide) (by decide),
   (claim_C2_amended.2.2.2.2.2.2 ['?']).mpr (by decide)⟩

/-- Claim C7 as stated is false: `"1.0 2.0 Items"` carries the single-level
numbering prefix `"1.0"`, yet its cleaned content `"2.0 Items"` again
extracts the token `"2.0"` rather than NONE. -/
theorem claim_C7_counterexample :
    extract_numbering_from_line lineTwoTokens =
        some (tokOneDotZero, ['2', '.', '0', ' ', 'I', 't', 'e', 'm', 's']) ∧
      extract_numbering_from_line (clean_content lineTwoTokens tokOneDotZero) =
        some (['2', '.', '0'], ['I', 't', 'e', 'm', 's']) := by
  decide

/-- Claim C7 amended: for an input made of any token, a whitespace run and a
trimmed content part from which nothing is extractable, re-running extraction
on the cleaned content yields NONE; the extra condition on the content part
is necessary, as content that itself starts with a numbering form
re-extracts. -/
theorem claim_C7_amended :
    ∀ tok w c : List Char, w.all isPySpace = true → stripL c = c →
      extract_numbering_from_line c = none →
      extract_numbering_from_line (clean_content (tok ++ w ++ c) tok) = none := by
  intro tok w c hw hc hext
  have hl : lstripL c = c := lstripL_of_stripped hc
  have hwc : (w ++ c).dropWhile isPySpace = c := by
    rw [dropWhile_append_of_all hw]
    exact hl
  by_cases ht : tok.isEmpty
  · have htn : tok = [] := List.isEmpty_iff.mp ht
    subst htn
    simp only [List.nil_append]
    have hs : stripL (w ++ c) = c := by
      rw [stripL, show lstripL (w ++ c) = c from hwc]
      exact rstripL_of_stripped hc
    simp [clean_content, hs, hext]
  · have ht' : tok.isEmpty = false := by
      cases hh : tok.isEmpty
      · rfl
      · exact absurd hh ht
    have hp : tok.isPrefixOf (tok ++ w ++ c) = true := by
      rw [List.append_assoc]
      exact List.isPrefixOf_iff_prefix.mpr (List.prefix_append tok (w ++ c))
    simp only [clean_content, ht', hp, Bool.false_eq_true, if_false, if_true]
    have hdrop : (tok ++ w ++ c).drop tok.length = w ++ c := by
      rw [List.append_assoc]
      exact List.drop_left tok (w ++ c)
    rw [hdrop, hwc, hc]
    exact hext

/-- Witness for the amended C7: token `"1.0"`, a tab, and the content
`"Foundation requirements apply."`. -/
theorem claim_C7_witness :
    extract_numbering_from_line
        (clean_content (tokOneDotZero ++ ['\t'] ++ contentFoundation) tokOneDotZero) =
      none :=
  claim_C7_amended tokOneDotZero ['\t'] contentFoundation (by decide) (by decide)
    (by decide)

/-- Claim C8 contradicts the code, and the code contradicts its own intent
(its pattern comments document tokens `"(a)", "(b)", "(c)"`, and its cleaner
expects the captured token at the start of the text): the capture group of
`^\(([a-z]\))\s*` omits the opening parenthesis, so on
`"(a) Excavate to depth"` the code infers the token `"a)"`, which is then not
found at the start of the text, leaving `cleanedContent` unchanged; no level
function of the repository maps a parenthesized token to the claimed level 4
either. -/
theorem claim_C8_code_behavior :
    deduce_numbering_from_text textParenA = some ['a', ')'] ∧
      clean_content_from_numbering textParenA ['a', ')'] = textParenA ∧
      determine_level_from_numbering ['a', ')'] = none ∧
      determine_level_from_numbering ['(', 'a', ')'] = none ∧
      (classify1 recParenA).numberingToken = some ['a', ')'] ∧
      (classify1 recParenA).cleanedContent = textParenA ∧
      (classify1 recParenA).level = some 0 := by
  decide

end SpecRebuilder
